import Mathlib

/-!
Verification of the diff acquisition and normalization pipeline of
`smart-diff` (`src/smart_diff/git_utils.py`, `src/smart_diff/config.py`,
`src/smart_diff/cli.py`).

Texts are modelled as `List Char` (`Str`), matching Python's `str` as a
sequence of code points.  Each definition below is a direct translation of
the corresponding Python function; the subprocess backend is modelled as an
oracle `GitEnv` mapping an argument list to the outcome of
`subprocess.run` (normal completion, executable not found, or timeout).
-/

/-- A Python string: a sequence of characters. -/
abbrev Str := List Char

/-- Python's whitespace test for `str.strip()` / `str.split()`
(ASCII whitespace; the repository only ever strips git output, which is
ASCII). -/
def pyIsSpace (c : Char) : Bool :=
  c = ' ' ∨ c = '\t' ∨ c = '\n' ∨ c = '\r' ∨ c = '\x0b' ∨ c = '\x0c'

/-- Python `s.strip()`: remove leading and trailing whitespace. -/
def pyStrip (s : Str) : Str :=
  ((s.dropWhile pyIsSpace).reverse.dropWhile pyIsSpace).reverse

/-- Python `sub in s`: contiguous-substring containment. -/
def pyContains (sub s : Str) : Bool :=
  s.tails.any (fun t => sub.isPrefixOf t)

/-- Accumulator for `pySplitWs`: `acc` holds the current word, reversed. -/
def pySplitWsAux : Str → Str → List Str
  | [], acc => if acc = [] then [] else [ acc.reverse ]
  | c :: cs, acc =>
    if pyIsSpace c then
      if acc = [] then pySplitWsAux cs [] else acc.reverse :: pySplitWsAux cs []
    else pySplitWsAux cs (c :: acc)

/-- Python `s.split()` (no separator): split on runs of whitespace,
dropping empty fields. -/
def pySplitWs (s : Str) : List Str := pySplitWsAux s []

/-- Python `s.split(sep, maxsplit)` for a one-character separator:
split at the first `maxsplit` occurrences of `sep`, the remainder staying
in the last field. -/
def pySplitCharMax (sep : Char) : Nat → Str → List Str
  | 0, s => [ s ]
  | n + 1, s =>
    let before := s.takeWhile (fun c => c ≠ sep)
    let rest := s.dropWhile (fun c => c ≠ sep)
    match rest with
    | [] => [ s ]
    | _ :: tail => before :: pySplitCharMax sep n tail

/-- Python `s.split("\n")`: split at every newline; the empty string
yields one empty field, a trailing newline a trailing empty field. -/
def splitNl : Str → List Str
  | [] => [ [] ]
  | c :: cs =>
    let r := splitNl cs
    if c = '\n' then [] :: r else (c :: r.headI) :: r.tail

/-- Python `"\n".join(lines)`. -/
def joinNl : List Str → Str
  | [] => []
  | [ l ] => l
  | l :: ls => l ++ '\n' :: joinNl ls

/-- Python `s.replace("\\", "/")` (single-character replacement). -/
def normSlash (s : Str) : Str :=
  s.map (fun c => if c = '\\' then '/' else c)

/-- Python `s.rstrip("/")`: remove trailing slashes. -/
def rstripSlashes (s : Str) : Str :=
  (s.reverse.dropWhile (fun c => c = '/')).reverse

/-- `fnmatch.fnmatch` on a POSIX system for patterns built from literal
characters and the wildcards `*` (any sequence) and `?` (any single
character): whole-string match.  Every pattern in `IGNORED_PATTERNS` is of
this shape (no `[...]` character class appears), so this agrees with the
library call made by `_should_ignore`. -/
def globMatch : Str → Str → Bool
  | [], s => s.isEmpty
  | p :: ps, s =>
    if p = '*' then s.tails.any (fun t => globMatch ps t)
    else
      match s with
      | [] => false
      | c :: cs => if p = '?' ∨ p = c then globMatch ps cs else false

/-- `config.IGNORED_PATTERNS`: files/patterns to skip when sending the
diff to the LLM (lock files, build artifacts). -/
def IGNORED_PATTERNS : List Str :=
  [ "package-lock.json".toList,
    "poetry.lock".toList,
    "Pipfile.lock".toList,
    "yarn.lock".toList,
    "pnpm-lock.yaml".toList,
    "bun.lockb".toList,
    "*.min.js".toList,
    "*.min.css".toList,
    ".bundle".toList,
    "vendor/".toList,
    "node_modules/".toList,
    "__pycache__/".toList,
    ".git/".toList,
    "*.pyc".toList,
    "*.egg-info/".toList,
    ".eggs/".toList,
    "dist/".toList,
    "build/".toList ]

/-- `git_utils._should_ignore`: whether to skip this path by ignored
patterns.  The loop with early `return True` is rendered as `List.any`
(same short-circuit result). -/
def _should_ignore (path : Str) : Bool :=
  let path := normSlash path
  IGNORED_PATTERNS.any (fun pattern =>
    if List.isSuffixOf [ '/' ] pattern then
      pyContains (rstripSlashes pattern) path || pattern.isPrefixOf path
    else
      globMatch pattern path || pyContains pattern path)

/-- The file-header marker of `_filter_diff_by_ignored`:
`line.startswith("diff --git ")`. -/
def isHeader (l : Str) : Bool :=
  List.isPrefixOf ("diff --git ".toList) l

/-- The `a/`-stripping step of `_filter_diff_by_ignored`:
`if file_path.startswith("a/"): file_path = file_path[2:]`. -/
def stripA (p : Str) : Str :=
  if List.isPrefixOf ("a/".toList) p then p.drop 2 else p

/-- The exclusion test `_filter_diff_by_ignored` applies to a header line:
`parts = line.split(); if len(parts) >= 4: ... _should_ignore(parts[2]
with "a/" stripped)`.  When fewer than 4 tokens are present the line is
never excluded.  (`getD 2 []` is `parts[2]`; the default is unreachable
because `4 ≤ parts.length`.) -/
def excludedHeader (l : Str) : Bool :=
  let parts := pySplitWs l
  if 4 ≤ parts.length then _should_ignore (stripA (parts.getD 2 [])) else false

/-- The scanning loop of `_filter_diff_by_ignored` over the split lines,
carrying `skip_until_next_file` (initially `true`).  The source's inner
`while`-loop — after an excluded header, advance until the next
`diff --git ` line — is realized by the `skip` flag: with `skip = true`
every non-header line is dropped and the next header line is re-examined,
exactly as the loop's `continue` re-examines it. -/
def filterGo : Bool → List Str → List Str
  | _, [] => []
  | skip, l :: rest =>
    if isHeader l then
      if excludedHeader l then filterGo true rest
      else l :: filterGo false rest
    else
      if skip then filterGo skip rest
      else l :: filterGo skip rest

/-- `git_utils._filter_diff_by_ignored`: remove from the diff the hunks of
ignored files (`diff_text.split("\n")`, the scanning loop, then
`"\n".join(result)`). -/
def _filter_diff_by_ignored (diff_text : Str) : Str :=
  joinNl (filterGo true (splitNl diff_text))

/-- Specification-side segmentation of a patch into file segments: drop
everything before the first `diff --git ` header line; each segment is a
header line together with the following non-header lines. -/
def splitSegments : List Str → List (List Str)
  | [] => []
  | l :: ls =>
    if isHeader l then
      (l :: ls.takeWhile (fun x => !isHeader x)) ::
        splitSegments (ls.dropWhile (fun x => !isHeader x))
    else splitSegments ls
termination_by L => L.length
decreasing_by
· simp only [List.length_cons]
  exact Nat.lt_succ_of_le (List.dropWhile_suffix _).sublist.length_le
· simp

/-- A file segment is retained iff its header line is not excluded. -/
def keepSeg : List Str → Bool
  | [] => true
  | l :: _ => !excludedHeader l

/-- Well-formedness of a file segment: nonempty, its first line is a
header line, and no later line is a header line. -/
def wfSeg : List Str → Bool
  | [] => false
  | l :: t => isHeader l && t.all (fun x => !isHeader x)

/-- `config.MAX_DIFF_CHARS`: max diff size in chars. -/
def MAX_DIFF_CHARS : Nat := 30000

/-- `config.TAIL_CHARS`: when truncating, keep this many chars at the
end. -/
def TAIL_CHARS : Nat := 5000

/-- The fixed truncation marker inserted by `truncate_diff`. -/
def TRUNC_MARKER : Str :=
  "\n\n... [diff truncated to save context] ...\n\n".toList

/-- `git_utils.truncate_diff`: truncate the diff to `MAX_DIFF_CHARS`,
keeping `TAIL_CHARS` at the end.  Python `diff_text[:head]` is `take`;
`diff_text[-TAIL_CHARS:]` is the last `TAIL_CHARS` characters, i.e.
`drop (length - TAIL_CHARS)` (in this branch `length > MAX_DIFF_CHARS ≥
TAIL_CHARS`). -/
def truncate_diff (diff_text : Str) : Str :=
  if diff_text.length ≤ MAX_DIFF_CHARS then diff_text
  else
    diff_text.take (MAX_DIFF_CHARS - TAIL_CHARS) ++ TRUNC_MARKER ++
      diff_text.drop (diff_text.length - TAIL_CHARS)

/-- Outcome of one `subprocess.run` invocation of the git executable:
normal completion with captured output, `FileNotFoundError`, or
`subprocess.TimeoutExpired`. -/
inductive ProcResult where
  | ok (stdout stderr : Str) (code : Int)
  | notFound
  | timedOut
deriving DecidableEq

/-- The version-control backend as an oracle: the behaviour of the spawned
process for a given argument list.  The caller's working directory is part
of the modelled environment. -/
def GitEnv : Type := List String → ProcResult

/-- `git_utils.GitError`: git command failed; carries the message and the
return code. -/
structure GitError where
  message : Str
  returncode : Int
deriving DecidableEq

/-- `git_utils._run_git`: run a git command, returning
`(stdout.strip(), stderr.strip(), returncode)`; `FileNotFoundError` yields
the dedicated please-install message with code 127, a timeout the
dedicated timeout message with code -1. -/
def _run_git (env : GitEnv) (args : List String) : Str × Str × Int :=
  match env args with
  | ProcResult.ok out err code => (pyStrip out, pyStrip err, code)
  | ProcResult.notFound => ([], "Git not found. Install Git.".toList, 127)
  | ProcResult.timedOut => ([], "Git command timed out.".toList, -1)

/-- The argument list `get_diff` passes to git for the diff/show query:
`show <ref> --format= --no-color --` for a revision, else
`diff --no-color [--cached]`. -/
def gitQueryArgs (staged : Bool) (ref : Option String) : List String :=
  match ref with
  | some r => [ "show", r, "--format=", "--no-color", "--" ]
  | none => [ "diff", "--no-color" ] ++ (if staged then [ "--cached" ] else [])

/-- `git_utils.get_diff`: check `rev-parse --is-inside-work-tree` (on
failure or absent "true" return the empty diff), run the diff/show query,
raise `GitError` with `stderr or stdout or "Unknown git error"` and the
exit code when it fails, and filter the result.  Raising is modelled by
`Except.error`. -/
def get_diff (env : GitEnv) (staged : Bool) (ref : Option String) :
    Except GitError Str :=
  let r0 := _run_git env [ "rev-parse", "--is-inside-work-tree" ]
  if r0.2.2 ≠ 0 ∨ ¬ pyContains ("true".toList) r0.1 then Except.ok []
  else
    let r1 := _run_git env (gitQueryArgs staged ref)
    if r1.2.2 ≠ 0 then
      Except.error
        ⟨(if r1.2.1 ≠ [] then r1.2.1
          else if r1.1 ≠ [] then r1.1
          else "Unknown git error".toList), r1.2.2⟩
    else Except.ok (_filter_diff_by_ignored r1.1)

/-- `git_utils.get_diff_for_llm`: the filtered and optionally truncated
diff for the LLM. -/
def get_diff_for_llm (env : GitEnv) (staged : Bool) (ref : Option String) :
    Except GitError Str :=
  match get_diff env staged ref with
  | Except.error e => Except.error e
  | Except.ok diff => Except.ok (truncate_diff diff)

/-- `cli._get_diff`: obtain the diff; when it is whitespace-only, the
last-commit fallback is allowed, no ref was given and `staged` is off,
retry with ref "HEAD", returning the retried text with the flag `true`
when it is non-whitespace; a `GitError` during the retry is swallowed
(`except GitError: pass`), falling through to `return diff, False` with
`diff` the reassigned value when the retry succeeded and the original
value when it raised. -/
def _get_diff (env : GitEnv) (staged : Bool) (ref : Option String)
    (auto_last_commit : Bool) : Except GitError (Str × Bool) :=
  match get_diff_for_llm env staged ref with
  | Except.error e => Except.error e
  | Except.ok diff =>
    if pyStrip diff = [] ∧ auto_last_commit = true ∧ ref = none ∧
        staged = false then
      match get_diff_for_llm env false (some "HEAD") with
      | Except.ok d2 =>
        if pyStrip d2 ≠ [] then Except.ok (d2, true) else Except.ok (d2, false)
      | Except.error _ => Except.ok (diff, false)
    else Except.ok (diff, false)

/-- One per-file stat record of `get_diff_numstat`:
`{path, added, deleted}`. -/
structure FileStat where
  path : Str
  added : Int
  deleted : Int
deriving DecidableEq

/-- Value of an all-digit string. -/
def digitsVal (l : Str) : Int :=
  l.foldl (fun acc c => acc * 10 + ((c.toNat : Int) - ('0'.toNat : Int))) 0

/-- Python `int(s)` as used on numstat fields, returning `none` where
CPython raises `ValueError`: optional surrounding whitespace, an optional
sign, then one or more ASCII digits.  (Underscore separators and non-ASCII
digits, which git never emits here, are not modelled.) -/
def pyToInt (s : Str) : Option Int :=
  let t := pyStrip s
  match t with
  | [] => none
  | c :: rest =>
    let digits := if c = '-' ∨ c = '+' then rest else t
    if digits ≠ [] ∧ digits.all Char.isDigit then
      some (if c = '-' then - digitsVal digits else digitsVal digits)
    else none

/-- The argument list `get_diff_numstat` passes to git:
`show <ref> --numstat --format=` for a revision, else
`diff --numstat [--cached]`. -/
def numstatArgs (staged : Bool) (ref : Option String) : List String :=
  match ref with
  | some r => [ "show", r, "--numstat", "--format=" ]
  | none => [ "diff", "--numstat" ] ++ (if staged then [ "--cached" ] else [])

/-- The body of `get_diff_numstat`'s loop for one output record: skip
whitespace-only lines, split into at most three tab-separated fields
(`line.split("\t", 2)`), skip on any other field count, normalize the
path, skip ignored paths, read the numeric fields with `-` meaning 0 and
skip the record when `int()` raises. -/
def parseNumstatLine (line : Str) : Option FileStat :=
  if pyStrip line = [] then none
  else
    match pySplitCharMax '\t' 2 line with
    | [ add_s, del_s, path0 ] =>
      let path := normSlash (pyStrip path0)
      if _should_ignore path then none
      else
        match (if add_s = [ '-' ] then some 0 else pyToInt add_s),
            (if del_s = [ '-' ] then some 0 else pyToInt del_s) with
        | some added, some deleted => some ⟨path, added, deleted⟩
        | _, _ => none
    | _ => none

/-- The record loop of `get_diff_numstat` over
`stdout.strip().split("\n")`; `continue` on a skipped record appends
nothing, so the loop is `filterMap`. -/
def parseNumstat (stdout : Str) : List FileStat :=
  (splitNl (pyStrip stdout)).filterMap parseNumstatLine

/-- `git_utils.get_diff_numstat`: per-file added/deleted line stats,
empty on any backend failure. -/
def get_diff_numstat (env : GitEnv) (staged : Bool) (ref : Option String) :
    List FileStat :=
  let r := _run_git env (numstatArgs staged ref)
  if r.2.2 ≠ 0 then [] else parseNumstat r.1

/-- Backend oracle where the git executable is never found. -/
def envGitMissing : GitEnv := fun _ => ProcResult.notFound

/-- Backend oracle: inside a work tree, and the diff/show query fails with
exit code 1 and diagnostics on stderr. -/
def envQueryFails : GitEnv := fun args =>
  if args = [ "rev-parse", "--is-inside-work-tree" ] then
    ProcResult.ok ("true".toList) [] 0
  else ProcResult.ok ("out".toList) ("boom".toList) 1

/-- Backend oracle: inside a work tree, and the diff/show query times
out. -/
def envQueryTimesOut : GitEnv := fun args =>
  if args = [ "rev-parse", "--is-inside-work-tree" ] then
    ProcResult.ok ("true".toList) [] 0
  else ProcResult.timedOut

/-- Backend oracle: inside a work tree, every query succeeds with empty
output (a clean repository whose HEAD patch is also empty). -/
def envAllEmpty : GitEnv := fun args =>
  if args = [ "rev-parse", "--is-inside-work-tree" ] then
    ProcResult.ok ("true".toList) [] 0
  else ProcResult.ok [] [] 0

/-- Backend oracle: inside a work tree, clean working tree, and `show
HEAD` produces a one-file patch. -/
def envCleanWithHead : GitEnv := fun args =>
  if args = [ "rev-parse", "--is-inside-work-tree" ] then
    ProcResult.ok ("true".toList) [] 0
  else if args = [ "show", "HEAD", "--format=", "--no-color", "--" ] then
    ProcResult.ok ("diff --git a/f b/f\n+x".toList) [] 0
  else ProcResult.ok [] [] 0

/-- C9: under the fixed exclusion list, the Pattern Matcher returns `true`
for "node_modules/foo.js", `false` for "src/main.go", `true` for
"package-lock.json", and `true` for "vendor/pkg/a.go". -/
theorem should_ignore_examples :
    _should_ignore ("node_modules/foo.js".toList) = true ∧
    _should_ignore ("src/main.go".toList) = false ∧
    _should_ignore ("package-lock.json".toList) = true ∧
    _should_ignore ("vendor/pkg/a.go".toList) = true := by
  decide

theorem splitSegments_nil : splitSegments [] = [] := by
  simp [splitSegments]

theorem splitSegments_cons_pos (l : Str) (ls : List Str)
    (h : isHeader l = true) :
    splitSegments (l :: ls) =
      (l :: ls.takeWhile (fun x => !isHeader x)) ::
        splitSegments (ls.dropWhile (fun x => !isHeader x)) := by
  rw [splitSegments]
  simp [h]

theorem splitSegments_cons_neg (l : Str) (ls : List Str)
    (h : isHeader l = false) :
    splitSegments (l :: ls) = splitSegments ls := by
  rw [splitSegments]
  simp [h]

theorem filterGo_header_irrel (s₁ s₂ : Bool) (l : Str) (rest : List Str)
    (h : isHeader l = true) :
    filterGo s₁ (l :: rest) = filterGo s₂ (l :: rest) := by
  simp [filterGo, h]

theorem filterGo_true_dropWhile (L : List Str) :
    filterGo true L = filterGo true (L.dropWhile (fun x => !isHeader x)) := by
  induction L with
  | nil => rfl
  | cons l ls ih =>
    by_cases h : isHeader l
    · rw [List.dropWhile_cons_of_neg (by simp [h])]
    · rw [List.dropWhile_cons_of_pos (by simp [h])]
      simpa [filterGo, h] using ih

theorem filterGo_false_split (L : List Str) :
    filterGo false L =
      L.takeWhile (fun x => !isHeader x) ++
        filterGo true (L.dropWhile (fun x => !isHeader x)) := by
  induction L with
  | nil => rfl
  | cons l ls ih =>
    by_cases h : isHeader l
    · rw [List.takeWhile_cons_of_neg (by simp [h]),
        List.dropWhile_cons_of_neg (by simp [h]), List.nil_append]
      exact filterGo_header_irrel false true l ls h
    · rw [List.takeWhile_cons_of_pos (by simp [h]),
        List.dropWhile_cons_of_pos (by simp [h]), List.cons_append]
      simpa [filterGo, h] using ih

theorem filterGo_true_segments (L : List Str) :
    filterGo true L = ((splitSegments L).filter keepSeg).flatten := by
  induction L using splitSegments.induct with
  | case1 => simp [splitSegments_nil, filterGo]
  | case2 l ls h ih =>
    rw [splitSegments_cons_pos l ls h]
    by_cases hE : excludedHeader l
    · have h1 : filterGo true (l :: ls) = filterGo true ls := by
        simp [filterGo, h, hE]
      have h2 : keepSeg (l :: ls.takeWhile (fun x => !isHeader x)) = false := by
        simp [keepSeg, hE]
      rw [h1, filterGo_true_dropWhile ls, ih, List.filter_cons_of_neg (by simp [h2])]
    · have h1 : filterGo true (l :: ls) = l :: filterGo false ls := by
        simp [filterGo, h, hE]
      have h2 : keepSeg (l :: ls.takeWhile (fun x => !isHeader x)) = true := by
        simp [keepSeg, hE]
      rw [h1, filterGo_false_split ls, ih, List.filter_cons_of_pos (by simp [h2]),
        List.flatten_cons, List.cons_append]
  | case3 l ls h ih =>
    rw [splitSegments_cons_neg l ls (by simpa using h)]
    have h1 : filterGo true (l :: ls) = filterGo true ls := by
      simp [filterGo, h]
    rw [h1, ih]

theorem wf_splitSegments (L : List Str) :
    (splitSegments L).all wfSeg = true := by
  induction L using splitSegments.induct with
  | case1 => simp [splitSegments_nil]
  | case2 l ls h ih =>
    rw [splitSegments_cons_pos l ls h]
    refine List.all_eq_true.mpr ?_
    intro seg hseg
    rcases List.mem_cons.mp hseg with hs | hs
    · subst hs
      simp only [wfSeg, h, Bool.true_and]
      refine List.all_eq_true.mpr ?_
      intro x hx
      have h3 := List.mem_takeWhile_imp hx
      simpa using h3
    · exact List.all_eq_true.mp ih seg hs
  | case3 l ls h ih =>
    rw [splitSegments_cons_neg l ls (by simpa using h)]
    exact ih

theorem takeWhile_append_of_all (p : Str → Bool) (t r : List Str)
    (h : t.all p = true) :
    (t ++ r).takeWhile p = t ++ r.takeWhile p := by
  induction t with
  | nil => simp
  | cons a t ih =>
    simp only [List.all_cons, Bool.and_eq_true] at h
    rw [List.cons_append, List.takeWhile_cons_of_pos h.1, ih h.2, List.cons_append]

theorem dropWhile_append_of_all (p : Str → Bool) (t r : List Str)
    (h : t.all p = true) :
    (t ++ r).dropWhile p = r.dropWhile p := by
  induction t with
  | nil => simp
  | cons a t ih =>
    simp only [List.all_cons, Bool.and_eq_true] at h
    rw [List.cons_append, List.dropWhile_cons_of_pos h.1, ih h.2]

theorem splitSegments_flatten (S : List (List Str))
    (h : S.all wfSeg = true) :
    splitSegments S.flatten = S := by
  induction S with
  | nil => simp [splitSegments_nil]
  | cons seg rest ih =>
    simp only [List.all_cons, Bool.and_eq_true] at h
    rcases h with ⟨hseg, hrest⟩
    match seg, hseg with
    | hd :: tl, hseg =>
      simp only [wfSeg, Bool.and_eq_true] at hseg
      rcases hseg with ⟨hH, hT⟩
      have hflat : ((hd :: tl) :: rest).flatten = hd :: (tl ++ rest.flatten) := by
        simp
      rw [hflat, splitSegments_cons_pos hd (tl ++ rest.flatten) hH,
        takeWhile_append_of_all _ tl _ hT, dropWhile_append_of_all _ tl _ hT]
      have hrtake : rest.flatten.takeWhile (fun x => !isHeader x) = [] ∧
          rest.flatten.dropWhile (fun x => !isHeader x) = rest.flatten := by
        match rest, hrest with
        | [], _ => simp
        | seg2 :: r2, hrest =>
          simp only [List.all_cons, Bool.and_eq_true] at hrest
          match seg2, hrest.1 with
          | h2 :: t2, hseg2 =>
            simp only [wfSeg, Bool.and_eq_true] at hseg2
            have hflat2 : ((h2 :: t2) :: r2).flatten = h2 :: (t2 ++ r2.flatten) := by
              simp
            rw [hflat2]
            constructor
            · exact List.takeWhile_cons_of_neg (by simp [hseg2.1])
            · exact List.dropWhile_cons_of_neg (by simp [hseg2.1])
      rw [hrtake.1, hrtake.2, List.append_nil, ih hrest]

theorem mem_filterGo (skip : Bool) (L : List Str) (x : Str)
    (h : x ∈ filterGo skip L) : x ∈ L := by
  induction L generalizing skip with
  | nil => simp [filterGo] at h
  | cons l ls ih =>
    by_cases hH : isHeader l
    · by_cases hE : excludedHeader l
      · rw [show filterGo skip (l :: ls) = filterGo true ls by
          simp [filterGo, hH, hE]] at h
        exact List.mem_cons_of_mem l (ih true h)
      · rw [show filterGo skip (l :: ls) = l :: filterGo false ls by
          simp [filterGo, hH, hE]] at h
        rcases List.mem_cons.mp h with hx | hx
        · exact hx ▸ List.mem_cons_self l ls
        · exact List.mem_cons_of_mem l (ih false hx)
    · cases skip with
      | true =>
        rw [show filterGo true (l :: ls) = filterGo true ls by
          simp [filterGo, hH]] at h
        exact List.mem_cons_of_mem l (ih true h)
      | false =>
        rw [show filterGo false (l :: ls) = l :: filterGo false ls by
          simp [filterGo, hH]] at h
        rcases List.mem_cons.mp h with hx | hx
        · exact hx ▸ List.mem_cons_self l ls
        · exact List.mem_cons_of_mem l (ih false hx)

theorem splitNl_ne_nil (s : Str) : splitNl s ≠ [] := by
  induction s with
  | nil => simp [splitNl]
  | cons c cs ih =>
    by_cases h : c = '\n' <;> simp [splitNl, h]

theorem splitNl_cons_newline (cs : Str) :
    splitNl ('\n' :: cs) = [] :: splitNl cs := by
  simp [splitNl]

theorem splitNl_cons_other (c : Char) (cs : Str) (h : ¬ c = '\n') :
    splitNl (c :: cs) = (c :: (splitNl cs).headI) :: (splitNl cs).tail := by
  simp [splitNl, h]

theorem not_newline_mem_splitNl (s : Str) (p : Str)
    (h : p ∈ splitNl s) : ('\n' : Char) ∉ p := by
  induction s generalizing p with
  | nil =>
    simp only [splitNl, List.mem_singleton] at h
    simp [h]
  | cons c cs ih =>
    by_cases hc : c = '\n'
    · subst hc
      rw [splitNl_cons_newline] at h
      rcases List.mem_cons.mp h with h1 | h1
      · simp [h1]
      · exact ih p h1
    · rw [splitNl_cons_other c cs hc] at h
      rcases List.mem_cons.mp h with h1 | h1
      · subst h1
        intro hmem
        rcases List.mem_cons.mp hmem with h2 | h2
        · exact hc h2.symm
        · rcases hq : splitNl cs with _ | ⟨q, qs⟩
          · exact splitNl_ne_nil cs hq
          · rw [hq, List.headI_cons] at h2
            exact ih q (hq ▸ List.mem_cons_self q qs) h2
      · rcases hq : splitNl cs with _ | ⟨q, qs⟩
        · exact absurd hq (splitNl_ne_nil cs)
        · rw [hq, List.tail_cons] at h1
          exact ih p (hq ▸ List.mem_cons_of_mem q h1)

theorem splitNl_of_no_newline (l : Str) (h : ('\n' : Char) ∉ l) :
    splitNl l = [ l ] := by
  induction l with
  | nil => rfl
  | cons c cs ih =>
    have hc : ¬ c = '\n' := fun hh => h (hh ▸ List.mem_cons_self c cs)
    have hcs : ('\n' : Char) ∉ cs := fun hh => h (List.mem_cons_of_mem c hh)
    rw [splitNl_cons_other c cs hc, ih hcs, List.headI_cons, List.tail_cons]

theorem splitNl_append_newline (l r : Str) (h : ('\n' : Char) ∉ l) :
    splitNl (l ++ '\n' :: r) = l :: splitNl r := by
  induction l with
  | nil => simp [splitNl_cons_newline]
  | cons c cs ih =>
    have hc : ¬ c = '\n' := fun hh => h (hh ▸ List.mem_cons_self c cs)
    have hcs : ('\n' : Char) ∉ cs := fun hh => h (List.mem_cons_of_mem c hh)
    rw [List.cons_append, splitNl_cons_other c _ hc, ih hcs,
      List.headI_cons, List.tail_cons]

theorem splitNl_joinNl (ls : List Str) (h1 : ls ≠ [])
    (h2 : ∀ l ∈ ls, ('\n' : Char) ∉ l) :
    splitNl (joinNl ls) = ls := by
  induction ls with
  | nil => exact absurd rfl h1
  | cons l rest ih =>
    match rest with
    | [] =>
      exact splitNl_of_no_newline l (h2 l (List.mem_cons_self l []))
    | l2 :: r2 =>
      have hjoin : joinNl (l :: l2 :: r2) = l ++ '\n' :: joinNl (l2 :: r2) := rfl
      rw [hjoin, splitNl_append_newline l _ (h2 l (List.mem_cons_self l _)),
        ih (by simp) (fun x hx => h2 x (List.mem_cons_of_mem l hx))]

theorem wf_filter_splitSegments (L : List Str) :
    ((splitSegments L).filter keepSeg).all wfSeg = true := by
  refine List.all_eq_true.mpr ?_
  intro seg hseg
  exact List.all_eq_true.mp (wf_splitSegments L) seg (List.mem_of_mem_filter hseg)

/-- C1: for every raw patch text, the Patch Filter's output is exactly the
concatenation, in original order, of the verbatim file segments whose
header path (the `a/<path>` token with `a/` stripped and separators
normalized, headers of fewer than four tokens never matching) does not
match any Exclusion Rule — so no line of an excluded segment leaks into
the output; and partitioning the output at `diff --git ` header lines
yields only retained (non-matching) segments. -/
theorem filter_retains_exactly_unexcluded_segments (s : Str) :
    _filter_diff_by_ignored s =
      joinNl (((splitSegments (splitNl s)).filter keepSeg).flatten) ∧
    (splitSegments (filterGo true (splitNl s))).all keepSeg = true := by
  constructor
  · unfold _filter_diff_by_ignored
    rw [filterGo_true_segments]
  · rw [filterGo_true_segments, splitSegments_flatten _ (wf_filter_splitSegments _)]
    refine List.all_eq_true.mpr ?_
    intro seg hseg
    exact (List.mem_filter.mp hseg).2

/-- C3: the Patch Filter is idempotent: filtering its own output changes
nothing. -/
theorem filter_idempotent (s : Str) :
    _filter_diff_by_ignored (_filter_diff_by_ignored s)
      = _filter_diff_by_ignored s := by
  by_cases hO : filterGo true (splitNl s) = []
  · have h1 : _filter_diff_by_ignored s = [] := by
      unfold _filter_diff_by_ignored
      rw [hO]
      rfl
    rw [h1]
    decide
  · have hnl : ∀ p ∈ filterGo true (splitNl s), ('\n' : Char) ∉ p :=
      fun p hp => not_newline_mem_splitNl s p (mem_filterGo true (splitNl s) p hp)
    have hsplit : splitNl (_filter_diff_by_ignored s) = filterGo true (splitNl s) := by
      unfold _filter_diff_by_ignored
      exact splitNl_joinNl _ hO hnl
    have hOUTeq : filterGo true (splitNl s)
        = ((splitSegments (splitNl s)).filter keepSeg).flatten :=
      filterGo_true_segments _
    have hfix : filterGo true (filterGo true (splitNl s)) = filterGo true (splitNl s) := by
      rw [filterGo_true_segments (filterGo true (splitNl s)), hOUTeq,
        splitSegments_flatten _ (wf_filter_splitSegments _),
        List.filter_eq_self.mpr (fun x hx => (List.mem_filter.mp hx).2)]
    calc _filter_diff_by_ignored (_filter_diff_by_ignored s)
        = joinNl (filterGo true (splitNl (_filter_diff_by_ignored s))) := rfl
      _ = joinNl (filterGo true (filterGo true (splitNl s))) := by rw [hsplit]
      _ = joinNl (filterGo true (splitNl s)) := by rw [hfix]
      _ = _filter_diff_by_ignored s := rfl

/-- C4 (counterexample): in the header
`diff --git a/vendor/a.go b/kept.go` the 4th whitespace-separated token is
`b/kept.go`, whose (`a/`-stripped) path matches no Exclusion Rule — yet
the Patch Filter drops the whole segment, because the path actually
tested is the 3rd token `a/vendor/a.go` (stripped to `vendor/a.go`).  So
the tested path is not the 4th token. -/
theorem filter_third_token_counterexample :
    (pySplitWs ("diff --git a/vendor/a.go b/kept.go".toList)).getD 3 []
        = "b/kept.go".toList ∧
    _should_ignore (stripA ("b/kept.go".toList)) = false ∧
    _should_ignore (stripA ("a/vendor/a.go".toList)) = true ∧
    _filter_diff_by_ignored
        ("diff --git a/vendor/a.go b/kept.go\ncontent".toList) = [] := by
  refine ⟨by decide, by decide, by decide, by decide⟩

/-- C4 (amended): the path tested against the Pattern Matcher is the 3rd
whitespace-separated token of the header line (the `a/<old-path>` side),
with a leading `a/` stripped if present; a header line with fewer than 4
whitespace-separated tokens is treated as non-matching (never excluded).
Stated on the filter's scanning loop: an at-least-4-token header whose
stripped 3rd token matches drops its segment, one whose stripped 3rd
token does not match is emitted, and a fewer-than-4-token header is
always emitted. -/
theorem filter_third_token_amended (l : Str) (rest : List Str)
    (hH : isHeader l = true) :
    (4 ≤ (pySplitWs l).length →
      _should_ignore (stripA ((pySplitWs l).getD 2 [])) = true →
      filterGo true (l :: rest) = filterGo true rest) ∧
    (4 ≤ (pySplitWs l).length →
      _should_ignore (stripA ((pySplitWs l).getD 2 [])) = false →
      filterGo true (l :: rest) = l :: filterGo false rest) ∧
    ((pySplitWs l).length < 4 →
      filterGo true (l :: rest) = l :: filterGo false rest) := by
  refine ⟨fun h4 hig => ?_, fun h4 hig => ?_, fun h4 => ?_⟩
  · simp only [List.getD_eq_getElem?_getD] at hig
    simp [filterGo, hH, excludedHeader, h4, hig]
  · simp only [List.getD_eq_getElem?_getD] at hig
    simp [filterGo, hH, excludedHeader, h4, hig]
  · simp [filterGo, hH, excludedHeader, Nat.not_le.mpr h4]

theorem filter_third_token_amended_witness :
    filterGo true [ "diff --git a/vendor/x b/y".toList ] = [] ∧
    filterGo true [ "diff --git a/x".toList ] = [ "diff --git a/x".toList ] := by
  constructor
  · exact (filter_third_token_amended ("diff --git a/vendor/x b/y".toList) []
      (by decide)).1 (by decide) (by decide)
  · exact (filter_third_token_amended ("diff --git a/x".toList) []
      (by decide)).2.2 (by decide)

/-- C2: the Size Bounder returns any text of at most `MAX_DIFF_CHARS`
characters unchanged; a longer text is mapped to a text of length exactly
`(MAX_DIFF_CHARS - TAIL_CHARS) + length of the marker + TAIL_CHARS` whose
first `MAX_DIFF_CHARS - TAIL_CHARS` characters are the original's prefix
of that length and whose last `TAIL_CHARS` characters are the original's
last `TAIL_CHARS` characters. -/
theorem truncate_diff_spec (s : Str) :
    (s.length ≤ MAX_DIFF_CHARS → truncate_diff s = s) ∧
    (MAX_DIFF_CHARS < s.length →
      (truncate_diff s).length
          = (MAX_DIFF_CHARS - TAIL_CHARS) + TRUNC_MARKER.length + TAIL_CHARS ∧
      (truncate_diff s).take (MAX_DIFF_CHARS - TAIL_CHARS)
          = s.take (MAX_DIFF_CHARS - TAIL_CHARS) ∧
      (truncate_diff s).drop ((truncate_diff s).length - TAIL_CHARS)
          = s.drop (s.length - TAIL_CHARS)) := by
  constructor
  · intro h
    simp [truncate_diff, h]
  · intro h
    have hnle : ¬ s.length ≤ MAX_DIFF_CHARS := Nat.not_le.mpr h
    have htr : truncate_diff s =
        s.take (MAX_DIFF_CHARS - TAIL_CHARS) ++ TRUNC_MARKER ++
          s.drop (s.length - TAIL_CHARS) := by
      simp [truncate_diff, hnle]
    have hlen25 : (s.take (MAX_DIFF_CHARS - TAIL_CHARS)).length
        = MAX_DIFF_CHARS - TAIL_CHARS := by
      rw [List.length_take]
      simp only [MAX_DIFF_CHARS, TAIL_CHARS] at h ⊢
      omega
    have hlentail : (s.drop (s.length - TAIL_CHARS)).length = TAIL_CHARS := by
      rw [List.length_drop]
      simp only [MAX_DIFF_CHARS, TAIL_CHARS] at h ⊢
      omega
    have hlen : (truncate_diff s).length
        = (MAX_DIFF_CHARS - TAIL_CHARS) + TRUNC_MARKER.length + TAIL_CHARS := by
      rw [htr, List.length_append, List.length_append, hlen25, hlentail]
    refine ⟨hlen, ?_, ?_⟩
    · rw [htr, List.append_assoc, List.take_left' hlen25]
    · rw [hlen, htr, List.append_assoc]
      have hfront : (s.take (MAX_DIFF_CHARS - TAIL_CHARS) ++ TRUNC_MARKER).length
          = (MAX_DIFF_CHARS - TAIL_CHARS) + TRUNC_MARKER.length + TAIL_CHARS
              - TAIL_CHARS := by
        rw [List.length_append, hlen25]
        omega
      rw [← List.append_assoc]
      exact List.drop_left' hfront

theorem truncate_diff_spec_witness :
    truncate_diff [] = [] ∧
    (truncate_diff (List.replicate 30001 'a')).length
        = (MAX_DIFF_CHARS - TAIL_CHARS) + TRUNC_MARKER.length + TAIL_CHARS := by
  constructor
  · exact (truncate_diff_spec []).1 (by simp [MAX_DIFF_CHARS])
  · exact ((truncate_diff_spec (List.replicate 30001 'a')).2
      (by rw [List.length_replicate]; decide)).1

theorem truncate_diff_length_le (s : Str) :
    (truncate_diff s).length ≤ MAX_DIFF_CHARS + TRUNC_MARKER.length := by
  by_cases h : s.length ≤ MAX_DIFF_CHARS
  · rw [(truncate_diff_spec s).1 h]
    exact Nat.le_trans h (Nat.le_add_right _ _)
  · rw [((truncate_diff_spec s).2 (Nat.not_le.mp h)).1]
    simp only [MAX_DIFF_CHARS, TAIL_CHARS]
    omega

/-- C10: whatever the backend does (any scope, any working directory,
modelled by the oracle `env`), a patch text returned by `get_diff_for_llm`
has length at most `MAX_DIFF_CHARS` plus the length of the fixed
truncation marker. -/
theorem llm_diff_bounded (env : GitEnv) (staged : Bool) (ref : Option String)
    (out : Str) (h : get_diff_for_llm env staged ref = Except.ok out) :
    out.length ≤ MAX_DIFF_CHARS + TRUNC_MARKER.length := by
  unfold get_diff_for_llm at h
  cases hg : get_diff env staged ref with
  | error e =>
    rw [hg] at h
    cases h
  | ok d =>
    rw [hg] at h
    simp only [Except.ok.injEq] at h
    subst h
    exact truncate_diff_length_le d

theorem llm_diff_bounded_witness :
    get_diff_for_llm envAllEmpty false none = Except.ok [] ∧
    ([] : Str).length ≤ MAX_DIFF_CHARS + TRUNC_MARKER.length :=
  ⟨by rfl, llm_diff_bounded envAllEmpty false none [] (by rfl)⟩

/-- C5 (counterexample): with the git executable missing (every
invocation raises `FileNotFoundError`), `get_diff` does not raise: the
initial repository check comes back with code 127, so `get_diff` takes
the not-a-repository branch and returns the empty patch text normally. -/
theorem git_not_found_counterexample :
    get_diff envGitMissing false none = Except.ok [] := by
  rfl

/-- C5 (amended): when the backend executable cannot be found, `_run_git`
reports the dedicated please-install message "Git not found. Install
Git." with exit code 127, but `get_diff` — whose repository check itself
fails with that code — returns the empty patch text normally instead of
raising a `BackendError`. -/
theorem git_not_found_amended (env : GitEnv) (staged : Bool)
    (ref : Option String) (h : ∀ args, env args = ProcResult.notFound) :
    _run_git env [ "rev-parse", "--is-inside-work-tree" ]
        = ([], "Git not found. Install Git.".toList, 127) ∧
    get_diff env staged ref = Except.ok [] := by
  have h0 : _run_git env [ "rev-parse", "--is-inside-work-tree" ]
      = ([], "Git not found. Install Git.".toList, 127) := by
    unfold _run_git
    rw [h]
  refine ⟨h0, ?_⟩
  unfold get_diff
  rw [h0]
  simp

theorem git_not_found_amended_witness :
    _run_git envGitMissing [ "rev-parse", "--is-inside-work-tree" ]
        = ([], "Git not found. Install Git.".toList, 127) ∧
    get_diff envGitMissing false none = Except.ok [] :=
  git_not_found_amended envGitMissing false none (fun _ => rfl)

/-- C6: inside a repository (the initial check succeeds and reports
"true"), a diff/show query exiting with a non-zero code makes `get_diff`
raise `GitError` whose message is the query's (stripped) stderr, falling
back to its (stripped) stdout, falling back to the fixed generic message,
and whose stored code is the backend's exit code; a timed-out query
raises `GitError` with the dedicated timeout message and code -1, and
that message differs from the generic one. -/
theorem get_diff_error_propagation (env : GitEnv) (staged : Bool)
    (ref : Option String) (out0 err0 : Str)
    (hrepo : env [ "rev-parse", "--is-inside-work-tree" ]
        = ProcResult.ok out0 err0 0)
    (htrue : pyContains ("true".toList) (pyStrip out0) = true) :
    (∀ (out err : Str) (c : Int),
      env (gitQueryArgs staged ref) = ProcResult.ok out err c → c ≠ 0 →
      get_diff env staged ref = Except.error
        ⟨(if pyStrip err ≠ [] then pyStrip err
          else if pyStrip out ≠ [] then pyStrip out
          else "Unknown git error".toList), c⟩) ∧
    (env (gitQueryArgs staged ref) = ProcResult.timedOut →
      get_diff env staged ref
          = Except.error ⟨"Git command timed out.".toList, -1⟩ ∧
      ("Git command timed out.".toList : Str)
          ≠ ("Unknown git error".toList : Str)) := by
  have htrue2 : pyContains [ 't', 'r', 'u', 'e' ] (pyStrip out0) = true := htrue
  have hr0 : _run_git env [ "rev-parse", "--is-inside-work-tree" ]
      = (pyStrip out0, pyStrip err0, 0) := by
    unfold _run_git
    rw [hrepo]
  constructor
  · intro out err c hq hc
    have hr1 : _run_git env (gitQueryArgs staged ref)
        = (pyStrip out, pyStrip err, c) := by
      unfold _run_git
      rw [hq]
    unfold get_diff
    rw [hr0, hr1]
    simp [htrue2, hc]
  · intro hq
    have hr1 : _run_git env (gitQueryArgs staged ref)
        = ([], "Git command timed out.".toList, -1) := by
      unfold _run_git
      rw [hq]
    constructor
    · unfold get_diff
      rw [hr0, hr1]
      simp [htrue2]
    · decide

theorem get_diff_error_propagation_witness :
    get_diff envQueryFails false none = Except.error ⟨"boom".toList, 1⟩ ∧
    get_diff envQueryTimesOut false none
        = Except.error ⟨"Git command timed out.".toList, -1⟩ := by
  constructor
  · have h := (get_diff_error_propagation envQueryFails false none
      ("true".toList) [] rfl (by decide)).1
      ("out".toList) ("boom".toList) 1 rfl (by decide)
    exact h.trans rfl
  · exact ((get_diff_error_propagation envQueryTimesOut false none
      ("true".toList) [] rfl (by decide)).2 rfl).1

/-- C7 (counterexample): a repository state with no working-tree changes
in which the HEAD patch text is also empty (for instance a commit
touching only excluded files): the fallback returns the same patch text
as the explicit Revision("HEAD") call — the empty text — but the
last-commit flag is `false`, not `true` as the claim requires. -/
theorem fallback_flag_counterexample :
    get_diff_for_llm envAllEmpty false none = Except.ok [] ∧
    get_diff_for_llm envAllEmpty false (some "HEAD") = Except.ok [] ∧
    _get_diff envAllEmpty false none true = Except.ok ([], false) := by
  refine ⟨rfl, rfl, rfl⟩

/-- C7 (amended): with no working-tree changes (WorkingTree scope, not
staged, no explicit revision, fallback allowed), the caller retries with
Revision("HEAD") and returns the same patch text as that explicit call;
the last-commit flag is `true` when that text is non-whitespace and
`false` when it is whitespace-only; a `BackendError` raised during the
retry is swallowed and the caller proceeds with the original (empty)
text and flag `false`. -/
theorem fallback_head_amended (env : GitEnv) (d : Str)
    (hd : get_diff_for_llm env false none = Except.ok d)
    (hds : pyStrip d = []) :
    (∀ h2 : Str, get_diff_for_llm env false (some "HEAD") = Except.ok h2 →
      pyStrip h2 ≠ [] → _get_diff env false none true = Except.ok (h2, true)) ∧
    (∀ h2 : Str, get_diff_for_llm env false (some "HEAD") = Except.ok h2 →
      pyStrip h2 = [] → _get_diff env false none true = Except.ok (h2, false)) ∧
    (∀ e : GitError, get_diff_for_llm env false (some "HEAD") = Except.error e →
      _get_diff env false none true = Except.ok (d, false)) := by
  refine ⟨fun h2 hh2 hns => ?_, fun h2 hh2 hns => ?_, fun e he => ?_⟩
  · unfold _get_diff
    rw [hd, hh2]
    simp [hds, hns]
  · unfold _get_diff
    rw [hd, hh2]
    simp [hds, hns]
  · unfold _get_diff
    rw [hd, he]
    simp [hds]

theorem fallback_head_amended_witness :
    _get_diff envCleanWithHead false none true
        = Except.ok (("diff --git a/f b/f\n+x".toList), true) :=
  (fallback_head_amended envCleanWithHead [] rfl rfl).1
    ("diff --git a/f b/f\n+x".toList) rfl (by decide)

theorem parseNumstatLine_none_of_field_count (bad : Str)
    (h : (pySplitCharMax '\t' 2 bad).length ≠ 3) :
    parseNumstatLine bad = none := by
  unfold parseNumstatLine
  by_cases h0 : pyStrip bad = []
  · simp [h0]
  · rw [if_neg h0]
    rcases hp : pySplitCharMax '\t' 2 bad with _ | ⟨a, _ | ⟨b, _ | ⟨c, _ | _⟩⟩⟩ <;>
      first | rfl | (rw [hp] at h; simp at h)

/-- C8: the Stat Extractor parses each record as exactly three
tab-separated fields; a record with a different field count is skipped
silently without affecting other records (in particular a 2-field record
is dropped), and the `-` sentinel is read as 0, so the record
`-⟨tab⟩-⟨tab⟩binary.png` yields `{path: binary.png, added: 0,
deleted: 0}`. -/
theorem numstat_parsing_spec :
    (∀ (l₁ l₂ : List Str) (bad : Str),
      (pySplitCharMax '\t' 2 bad).length ≠ 3 →
      (l₁ ++ bad :: l₂).filterMap parseNumstatLine
        = (l₁ ++ l₂).filterMap parseNumstatLine) ∧
    parseNumstatLine ("-\t-\tbinary.png".toList)
        = some ⟨"binary.png".toList, 0, 0⟩ ∧
    (pySplitCharMax '\t' 2 ("1\t2".toList)).length = 2 ∧
    parseNumstatLine ("1\t2".toList) = none ∧
    parseNumstat ("1\t2\ta.txt\n-\t-\tbinary.png".toList)
        = [ ⟨"a.txt".toList, 1, 2⟩, ⟨"binary.png".toList, 0, 0⟩ ] := by
  refine ⟨?_, by decide, by decide, by decide, by decide⟩
  intro l₁ l₂ bad h
  rw [List.filterMap_append, List.filterMap_append, List.filterMap_cons,
    parseNumstatLine_none_of_field_count bad h]

theorem numstat_parsing_spec_witness :
    (pySplitCharMax '\t' 2 ("1\t2".toList)).length ≠ 3 ∧
    ([ "1\t2\ta.txt".toList ] ++ ("1\t2".toList) ::
        [ "-\t-\tbinary.png".toList ]).filterMap parseNumstatLine
      = ([ "1\t2\ta.txt".toList ] ++
          [ "-\t-\tbinary.png".toList ]).filterMap parseNumstatLine :=
  ⟨by decide, numstat_parsing_spec.1 [ "1\t2\ta.txt".toList ]
    [ "-\t-\tbinary.png".toList ] ("1\t2".toList) (by decide)⟩
